import Mathlib

/-!
Verification development for the chat-session core of this repository
(src/src/chat-manager.ts). The data model and the operations of
ChatManager and Search are embedded shallowly: JavaScript objects become
Lean structures, the JS Map (insertion-ordered) becomes an association
list, timestamps (Date.now) and generated uuids become explicit Nat
parameters, and the asynchronous stream callbacks become explicit step
functions on a turn state. Thrown exceptions become Except values that
carry the unchanged state.

The MessageTree class and the ellipsize helper are imported by
chat-manager.ts from modules that are not part of the sources at hand;
they are modelled from the specification (sections 3, 4.1, 4.2) and each
such definition says so in its doc comment.
-/

set_option linter.unusedVariables false

namespace ChatApp

/-- Message roles, from the spec data model: role in {user, assistant, system}. -/
inductive Role where
  | user
  | assistant
  | system
deriving Repr, DecidableEq

/-- A message node, from the Message shape used by chat-manager.ts
(id, parentID nullable, chatID, timestamp, role, content, done).
Uuids and timestamps are modelled as Nat. -/
structure Message where
  id : Nat
  parentID : Option Nat
  chatID : Nat
  timestamp : Nat
  role : Role
  content : String
  done : Bool
deriving Repr, DecidableEq

/-- Modelled from the spec: MessageTree stores its nodes in insertion
order (section 3: serialization is the flat insertion-order sequence;
the first addMessage becomes the effective root). The class itself is
imported by chat-manager.ts from a module not present in the sources. -/
structure MessageTree where
  msgs : List Message
deriving Repr, DecidableEq

/-- The empty tree, as produced by `new MessageTree()`. -/
def MessageTree.empty : MessageTree := ⟨[]⟩

/-- Lookup of a node by id. -/
def MessageTree.findMsg (t : MessageTree) (id : Nat) : Option Message :=
  t.msgs.find? (fun m => m.id == id)

/-- Modelled from the spec (section 4.1): `addMessage` inserts a new
node; adding a duplicate id is caller-guarded, modelled defensively as
a no-op so the operation is total. -/
def MessageTree.addMessage (t : MessageTree) (m : Message) : MessageTree :=
  if t.msgs.any (fun x => x.id == m.id) then t else ⟨t.msgs ++ [m]⟩

/-- Modelled from the spec (sections 3 and 4.1): `updateMessage`
overwrites the existing node of the same id in place, touching only the
mutable fields `content` and `done`; it no-ops when the id is absent. -/
def MessageTree.updateMessage (t : MessageTree) (m : Message) : MessageTree :=
  ⟨t.msgs.map (fun x =>
    if x.id == m.id then { x with content := m.content, done := m.done } else x)⟩

/-- Modelled from the spec (section 4.1): serialization flattens the
tree to its insertion-order sequence. -/
def MessageTree.serialize (t : MessageTree) : List Message := t.msgs

/-- Modelled from the spec (section 4.1): the `first` accessor yields
the effective root, i.e. the first message ever inserted. -/
def MessageTree.first (t : MessageTree) : Option Message := t.msgs.head?

/-- Parent-chain walk with explicit fuel (the walk follows parent links
toward the root; fuel `t.msgs.length` always suffices for well-formed
trees, proved below). -/
def MessageTree.chainTo (t : MessageTree) : Nat → Nat → List Message
  | 0, _ => []
  | fuel + 1, id =>
    match t.findMsg id with
    | none => []
    | some m =>
      match m.parentID with
      | none => [m]
      | some p => t.chainTo fuel p ++ [m]

/-- Modelled from the spec (section 4.1): `getMessageChainTo(id)`
returns the ordered root-to-`id` sequence of messages. -/
def MessageTree.getMessageChainTo (t : MessageTree) (id : Nat) : List Message :=
  t.chainTo t.msgs.length id

/-- A chat, from the Chat shape used by chat-manager.ts
(id, title, messages, created, updated). A JS-falsy title (undefined or
the empty string) is modelled as the empty string. -/
structure Chat where
  id : Nat
  title : String
  messages : MessageTree
  created : Nat
  updated : Nat
deriving Repr, DecidableEq

/-- `Map.get` on the chat map (`this.chats : Map<string, Chat>`),
modelled as an association list in insertion order, which is the
iteration order of a JS Map. -/
def mapGet (m : List (Nat × Chat)) (id : Nat) : Option Chat :=
  (m.find? (fun p => p.1 == id)).map (fun p => p.2)

/-- `Map.set`: replaces in place when the key exists, else appends,
matching JS Map iteration-order semantics. -/
def mapSet (m : List (Nat × Chat)) (id : Nat) (c : Chat) : List (Nat × Chat) :=
  if m.any (fun p => p.1 == id) then
    m.map (fun p => if p.1 == id then (id, c) else p)
  else m ++ [(id, c)]

/-- The JS whitespace characters relevant to `String.prototype.trim`. -/
def isJsWs (c : Char) : Bool :=
  c = ' ' || c = '\t' || c = '\n' || c = '\r' || c = '\x0b' || c = '\x0c'

/-- Model of the JS built-in `String.prototype.trim`. -/
def jsTrim (s : String) : String :=
  ⟨((s.toList.dropWhile isJsWs).reverse.dropWhile isJsWs).reverse⟩

/-- True exactly when `!query?.trim().length` is true for a present
string: every character is whitespace. -/
def isBlank (s : String) : Bool := s.toList.all isJsWs

/-- Modelled from the spec (section 4.2): `ellipsize` truncates a
string to a fixed length, appending an ellipsis marker when it had to
cut. -/
def ellipsize (s : String) (maxLength : Nat) : String :=
  if s.length ≤ maxLength then s else (s.take maxLength) ++ "..."

/-- The in-memory state of a ChatManager: the chat map and the two
private flags driving the persistence loop. -/
structure ManagerState where
  chats : List (Nat × Chat)
  loaded : Bool
  changed : Bool
deriving Repr, DecidableEq

/-- The `channel.onmessage` handler of the ChatManager constructor:
stores the received chat under its own id, unconditionally. -/
def onChannelMessage (st : ManagerState) (data : Chat) : ManagerState :=
  { st with chats := mapSet st.chats data.id data }

/-- The UserSubmittedMessage shape consumed by `sendMessage`. -/
structure UserSubmittedMessage where
  chatID : Nat
  parentID : Option Nat
  content : String
deriving Repr, DecidableEq

deriving instance DecidableEq for Except

/-- Everything observable about one `sendMessage` call: the returned or
thrown outcome (on success, carrying the context handed to `getReply`),
the state after the call, and the chat snapshots posted on the
replication channel. -/
structure SendOutcome where
  result : Except String (List Message)
  state : ManagerState
  broadcasts : List Chat
deriving DecidableEq

/-- The user message node constructed by `sendMessage`: its parent is
the submission's stated parent, verbatim. -/
def newUserMsg (sub : UserSubmittedMessage) (chat0 : Chat) (newId now : Nat) : Message :=
  { id := newId, parentID := sub.parentID, chatID := chat0.id,
    timestamp := now, role := .user, content := sub.content, done := true }

/-- `ChatManager.sendMessage`, embedded up to the `getReply` call. The
fresh uuid and `Date.now()` are passed in as `newId` and `now`; the
thrown `Error("Chat not found")` becomes an `.error` outcome carrying
the untouched state and an empty broadcast list, because the code
throws before any mutation. The in-place mutation of the chat object
obtained from the map is modelled by writing the new value back under
the key it was found at. -/
def sendMessage (st : ManagerState) (sub : UserSubmittedMessage)
    (newId now : Nat) : SendOutcome :=
  match mapGet st.chats sub.chatID with
  | none => ⟨.error "Chat not found", st, []⟩
  | some chat0 =>
    let newMessage : Message := newUserMsg sub chat0 newId now
    let chat := { chat0 with
      messages := chat0.messages.addMessage newMessage, updated := now }
    let st1 := { st with chats := mapSet st.chats sub.chatID chat }
    let context :=
      (match sub.parentID with
        | some p => chat.messages.getMessageChainTo p
        | none => []) ++ [newMessage]
    ⟨.ok context, st1, [chat]⟩

/-- The state of one in-flight reply turn: the captured `reply` message
object, the chat it lives in, and the chat snapshots broadcast so far
during the turn. -/
structure TurnState where
  reply : Message
  chat : Chat
  broadcasts : List Chat
deriving Repr, DecidableEq

/-- The synchronous prefix of `ChatManager.getReply`: creates the empty
assistant reply under the latest context message, inserts it and bumps
`updated`. -/
def getReplyStart (chat : Chat) (latest : Message) (newId now : Nat) : TurnState :=
  let reply : Message :=
    { id := newId, parentID := some latest.id, chatID := latest.chatID,
      timestamp := now, role := .assistant, content := "", done := false }
  let chat1 := { chat with
    messages := chat.messages.addMessage reply, updated := now }
  ⟨reply, chat1, [chat1]⟩

/-- The fixed text appended to the reply content by the stream error
handler in `getReply`. -/
def apologySuffix : String :=
  "\n\nI\x27m sorry, I\x27m having trouble connecting to OpenAI. Please make sure you\x27ve entered your OpenAI API key correctly and try again."

/-- The apology text as it ends up in the reply after `trim()`. -/
def apologyText : String := jsTrim apologySuffix

/-- The `response.on("error")` handler of `getReply`: only when the
reply content is still JS-falsy (empty), append the apology, trim, mark
done, write the node back, bump `updated` and broadcast; otherwise do
nothing at all. -/
def onStreamError (ts : TurnState) (now : Nat) : TurnState :=
  if ts.reply.content = "" then
    let reply := { ts.reply with
      content := jsTrim (ts.reply.content ++ apologySuffix), done := true }
    let chat := { ts.chat with
      messages := ts.chat.messages.updateMessage reply, updated := now }
    ⟨reply, chat, ts.broadcasts ++ [chat]⟩
  else ts

/-- The `response.on("data")` handler of `getReply`: replace the reply
content wholesale with the cumulative text, write the node back and
broadcast. Note: it does not touch `updated`. -/
def onStreamData (ts : TurnState) (data : String) : TurnState :=
  let reply := { ts.reply with content := data }
  let chat := { ts.chat with messages := ts.chat.messages.updateMessage reply }
  ⟨reply, chat, ts.broadcasts ++ [chat]⟩

/-- The `response.on("done")` handler of `getReply`: mark done, write
the node back, bump `updated`, broadcast; then, when the chat has no
title yet, store the title produced by the external title generator
(modelled as the argument `genTitle`, the empty string standing for a
JS-falsy result) and broadcast again if it is truthy. -/
def onStreamDone (ts : TurnState) (now : Nat) (genTitle : String) : TurnState :=
  let reply := { ts.reply with done := true }
  let chat := { ts.chat with
    messages := ts.chat.messages.updateMessage reply, updated := now }
  let ts1 : TurnState := ⟨reply, chat, ts.broadcasts ++ [chat]⟩
  if chat.title = "" then
    let chat2 := { chat with title := genTitle }
    if genTitle = "" then { ts1 with chat := chat2 }
    else ⟨reply, chat2, ts1.broadcasts ++ [chat2]⟩
  else ts1

/-- The observable state of the background persistence loop spawned by
the constructor: the two flags it reads, whether the async loop is
still running (an exception escaping `await this.save()` terminates the
`while (true)` for good), and how many flushes have been performed. -/
structure LoopState where
  loaded : Bool
  changed : Bool
  alive : Bool
  flushes : Nat
deriving Repr, DecidableEq

/-- One wake-up of the persistence loop. `saveFails` says whether the
`idb.set` inside `this.save()` rejects on this tick; a rejection
propagates out of the loop body and ends the loop. -/
def persistenceTick (st : LoopState) (saveFails : Bool) : LoopState :=
  if st.alive then
    if st.loaded && st.changed then
      let st1 := { st with changed := false }
      if saveFails then { st1 with alive := false }
      else { st1 with flushes := st1.flushes + 1 }
    else st
  else st

/-- The `this.on("update")` listener: sets the dirty flag. -/
def markChanged (st : LoopState) : LoopState := { st with changed := true }

/-- The ordering used by `Search.query` for the no-query branch, i.e.
the comparator `(a, b) => b.updated - a.updated`: `a` may come before
`b` exactly when `b.updated ≤ a.updated`. -/
def chatGE (a b : Chat) : Prop := b.updated ≤ a.updated

instance : DecidableRel chatGE :=
  fun a b => inferInstanceAs (Decidable (b.updated ≤ a.updated))

instance : IsTotal Chat chatGE :=
  ⟨fun a b => Nat.le_total b.updated a.updated⟩

instance : IsTrans Chat chatGE :=
  ⟨fun _ _ _ hab hbc => le_trans hbc hab⟩

/-- Model of `Array.prototype.sort` with the descending-`updated`
comparator (a comparison sort realising exactly the comparator order). -/
def sortByUpdatedDesc (l : List Chat) : List Chat :=
  List.insertionSort chatGE l

/-- One output row of `Search.processSearchResults`. -/
structure SearchHit where
  chatID : Nat
  title : String
  description : String
deriving Repr, DecidableEq

/-- The description derived for a chat by the search post-processing:
the first message content (JS-falsy absent content giving the empty
string) ellipsized to 400 characters. -/
def derivedDescription (chat : Chat) : String :=
  ellipsize ((chat.messages.first.map (fun m => m.content)).getD "") 400

/-- The body of the `processSearchResults` loop for one item (the loop
only ever reads `item.id`, so an item is its id here): resolve the live
chat, derive the ellipsized description from the first message, give a
title-less chat the fallback title, and drop the row when title or
description is falsy. The `{ ...chat }` copy means all writes land on a
local value, which the heap model below makes explicit. -/
def processItem (chats : List (Nat × Chat)) (itemId : Nat) : Option SearchHit :=
  match mapGet chats itemId with
  | none => none
  | some chat0 =>
    let description := derivedDescription chat0
    let title := if chat0.title = "" then ellipsize description 100 else chat0.title
    if title = "" ∨ description = "" then none
    else some ⟨itemId, title, description⟩

/-- `Search.processSearchResults`: the per-item loop, keeping the kept
rows in order. -/
def processSearchResults (chats : List (Nat × Chat)) (items : List Nat) : List SearchHit :=
  items.filterMap (processItem chats)

/-- The MiniSearch index, external to this core, modelled as an oracle:
the id lists returned by the fuzzy and by the prefix-mode search. -/
structure IndexOracle where
  fuzzyFn : String → List Nat
  prefixFn : String → List Nat

/-- `Search.query`: a blank query is served from the chat map sorted by
`updated` descending and cut to 10, ignoring the index; otherwise fuzzy
search first, falling back to prefix search when fuzzy yields nothing. -/
def searchQuery (idx : IndexOracle) (chats : List (Nat × Chat)) (q : String) : List SearchHit :=
  if isBlank q then
    let searchResults := (sortByUpdatedDesc (chats.map (fun p => p.2))).take 10
    processSearchResults chats (searchResults.map (fun c => c.id))
  else
    let output := processSearchResults chats (idx.fuzzyFn q)
    if output.isEmpty then processSearchResults chats (idx.prefixFn q)
    else output

/-- A heap of Chat objects, for making JS reference semantics explicit
where it matters (the `{ ...chat }` copy in `processSearchResults`).
References are allocated from a counter, so fresh references are always
distinct from live ones. -/
structure Heap where
  next : Nat
  cells : List (Nat × Chat)
deriving Repr, DecidableEq

/-- Heap read. -/
def Heap.get (h : Heap) (r : Nat) : Option Chat :=
  (h.cells.find? (fun p => p.1 == r)).map (fun p => p.2)

/-- Heap write (in-place field assignment on the object behind `r`). -/
def Heap.set (h : Heap) (r : Nat) (c : Chat) : Heap :=
  { h with cells := h.cells.map (fun p => if p.1 == r then (r, c) else p) }

/-- Heap allocation of a fresh object (the `{ ...chat }` spread copy). -/
def Heap.alloc (h : Heap) (c : Chat) : Nat × Heap :=
  (h.next, { next := h.next + 1, cells := (h.next, c) :: h.cells })

/-- The `processSearchResults` loop body for one item, at the level of
the object heap: the chat map stores references into the heap, the
spread copy allocates a fresh object, and the fallback-title assignment
writes through the fresh reference only. -/
def processItemH (store : List (Nat × Nat)) (h : Heap) (itemId : Nat) :
    Option SearchHit × Heap :=
  match (store.find? (fun p => p.1 == itemId)).map (fun p => p.2) with
  | none => (none, h)
  | some r =>
    match h.get r with
    | none => (none, h)
    | some chatVal =>
      let a := h.alloc chatVal
      let r1 := a.1
      let h1 := a.2
      let chat1 := (h1.get r1).getD chatVal
      let description := derivedDescription chat1
      let h2 := if chat1.title = "" then h1.set r1 { chat1 with title := ellipsize description 100 } else h1
      let chat2 := (h2.get r1).getD chat1
      if chat2.title = "" ∨ description = "" then (none, h2)
      else (some ⟨itemId, chat2.title, description⟩, h2)

/-- `processSearchResults` at the level of the object heap. -/
def processSearchResultsH (store : List (Nat × Nat)) (h : Heap) :
    List Nat → List SearchHit × Heap
  | [] => ([], h)
  | i :: rest =>
    let step := processItemH store h i
    let restOut := processSearchResultsH store step.2 rest
    (match step.1 with
      | none => restOut.1
      | some x => x :: restOut.1, restOut.2)

/-! ### Generic lemmas about the map model -/

theorem find?_set_of_any (id : Nat) (c : Chat) (m : List (Nat × Chat))
    (h : m.any (fun p => p.1 == id) = true) :
    (m.map (fun p => if p.1 == id then (id, c) else p)).find? (fun p => p.1 == id)
      = some (id, c) := by
  induction m with
  | nil => simp at h
  | cons p rest ih =>
    cases hp : (p.1 == id) with
    | true => simp [List.find?, hp]
    | false =>
      have hr : rest.any (fun x => x.1 == id) = true := by
        simpa [List.any_cons, hp] using h
      simpa [List.find?, hp] using ih hr

theorem find?_append_fresh (id : Nat) (c : Chat) (m : List (Nat × Chat))
    (h : m.any (fun p => p.1 == id) = false) :
    (m ++ [(id, c)]).find? (fun p => p.1 == id) = some (id, c) := by
  induction m with
  | nil => simp [List.find?]
  | cons p rest ih =>
    have hsplit : (p.1 == id) = false ∧ rest.any (fun x => x.1 == id) = false := by
      constructor
      · cases hq : (p.1 == id)
        · rfl
        · simp [List.any_cons, hq] at h
      · cases hq : rest.any (fun x => x.1 == id)
        · rfl
        · simp [List.any_cons, hq] at h

    simpa [List.find?, hsplit.1] using ih hsplit.2

theorem mapGet_mapSet_self (m : List (Nat × Chat)) (id : Nat) (c : Chat) :
    mapGet (mapSet m id c) id = some c := by
  unfold mapGet mapSet
  by_cases h : (m.any (fun p => p.1 == id)) = true
  · rw [if_pos h, find?_set_of_any id c m h]
    rfl
  · have h' : m.any (fun p => p.1 == id) = false := by
      cases hq : m.any (fun p => p.1 == id)
      · rfl
      · exact absurd hq h
    rw [if_neg h, find?_append_fresh id c m h']
    rfl

/-! ### Fixtures: a small concrete manager state -/

/-- A root user message, used as a concrete fixture. -/
def msgRoot : Message :=
  { id := 1, parentID := none, chatID := 7, timestamp := 0,
    role := .user, content := "hello", done := true }

/-- A one-node tree fixture. -/
def treeEx : MessageTree := MessageTree.empty.addMessage msgRoot

/-- A chat fixture holding `treeEx`. -/
def chatEx : Chat :=
  { id := 7, title := "", messages := treeEx, created := 10, updated := 100 }

/-- A manager-state fixture with the single chat 7. -/
def stEx : ManagerState := { chats := [(7, chatEx)], loaded := true, changed := false }

/-- An in-flight assistant reply fixture under `msgRoot`. -/
def replyEx : Message :=
  { id := 2, parentID := some 1, chatID := 7, timestamp := 0,
    role := .assistant, content := "", done := false }

/-- The chat fixture after the reply node was inserted. -/
def chatExReply : Chat :=
  { id := 7, title := "", messages := treeEx.addMessage replyEx,
    created := 10, updated := 100 }

/-- A turn-state fixture: empty reply content, as right after `getReplyStart`. -/
def tsEx : TurnState := { reply := replyEx, chat := chatExReply, broadcasts := [] }

/-! ### C1: error-event policy of the reply stream handler -/

/-- C1. While the reply content is still empty, an error event turns the
reply into the terminal apology message (content is the fixed apology
text, done is true), writes it into the tree, bumps `updated` and
broadcasts; once a data event has delivered non-empty cumulative
content, an error event changes nothing at all. -/
theorem claim1_error_event_policy (ts ts2 : TurnState) (now now2 : Nat) (d : String)
    (hempty : ts.reply.content = "") (hd : d ≠ "") :
    (onStreamError ts now).reply.content = apologyText ∧
    (onStreamError ts now).reply.done = true ∧
    (onStreamError ts now).chat.messages
      = ts.chat.messages.updateMessage (onStreamError ts now).reply ∧
    (onStreamError ts now).chat.updated = now ∧
    (onStreamError ts now).broadcasts = ts.broadcasts ++ [(onStreamError ts now).chat] ∧
    onStreamError (onStreamData ts2 d) now2 = onStreamData ts2 d := by
  constructor
  · simp [onStreamError, hempty, apologyText]
  constructor
  · simp [onStreamError, hempty]
  constructor
  · simp [onStreamError, hempty]
  constructor
  · simp [onStreamError, hempty]
  constructor
  · simp [onStreamError, hempty]
  · simp [onStreamError, onStreamData, hd]

/-- Witness for C1 at the concrete fixture, with the data text "hi". -/
theorem claim1_witness :
    (onStreamError tsEx 200).reply.content = apologyText ∧
    (onStreamError tsEx 200).reply.done = true ∧
    (onStreamError tsEx 200).chat.messages
      = tsEx.chat.messages.updateMessage (onStreamError tsEx 200).reply ∧
    (onStreamError tsEx 200).chat.updated = 200 ∧
    (onStreamError tsEx 200).broadcasts = tsEx.broadcasts ++ [(onStreamError tsEx 200).chat] ∧
    onStreamError (onStreamData tsEx "hi") 200 = onStreamData tsEx "hi" :=
  claim1_error_event_policy tsEx tsEx 200 200 "hi" (by decide) (by decide)

/-! ### C2: sendMessage on an unknown chat id -/

/-- C2. A `sendMessage` whose submission names a chat id absent from the
map fails with the not-found error, and the outcome carries the state
unchanged (no tree mutation, no `updated` change) and an empty
broadcast list. -/
theorem claim2_send_not_found (st : ManagerState) (sub : UserSubmittedMessage)
    (newId now : Nat) (h : mapGet st.chats sub.chatID = none) :
    sendMessage st sub newId now = ⟨.error "Chat not found", st, []⟩ := by
  simp [sendMessage, h]

/-- A submission naming the unknown chat id 9. -/
def subUnknown : UserSubmittedMessage := { chatID := 9, parentID := none, content := "hi" }

/-- Witness for C2 at the concrete fixture. -/
theorem claim2_witness :
    sendMessage stEx subUnknown 100 200 = ⟨.error "Chat not found", stEx, []⟩ :=
  claim2_send_not_found stEx subUnknown 100 200 (by decide)

/-! ### C3: last-applied-wins on the replication channel -/

/-- C3. The `channel.onmessage` handler replaces the stored chat with
the received one unconditionally, also when the incoming `updated` is
strictly older than the current local value. -/
theorem claim3_last_applied_wins (st : ManagerState) (cur inc : Chat)
    (hcur : mapGet st.chats inc.id = some cur) (hold : inc.updated < cur.updated) :
    mapGet (onChannelMessage st inc).chats inc.id = some inc := by
  simpa [onChannelMessage] using mapGet_mapSet_self st.chats inc.id inc

/-- An incoming replica snapshot for chat 7, older than `chatEx`. -/
def chatIncoming : Chat :=
  { id := 7, title := "other", messages := .empty, created := 10, updated := 50 }

/-- Witness for C3: the older incoming snapshot overwrites `chatEx`. -/
theorem claim3_witness :
    mapGet (onChannelMessage stEx chatIncoming).chats chatIncoming.id = some chatIncoming :=
  claim3_last_applied_wins stEx chatEx chatIncoming (by decide) (by decide)

/-! ### C5: which mutations bump `updated` -/

/-- Counterexample for C5: a data event is a content-affecting mutation
(the tree changes), yet the chat `updated` timestamp stays what it was:
the `data` handler of `getReply` does not touch `updated`. -/
theorem claim5_counterexample :
    (onStreamData tsEx "world").chat.updated = tsEx.chat.updated ∧
    (onStreamData tsEx "world").chat.messages ≠ tsEx.chat.messages := by
  decide

/-- C5 as amended: `sendMessage` (user-message insertion), the reply
creation, the empty-content error path and the done event all set
`updated` to the current time, but the incremental data events update
the reply content without touching `updated`. -/
theorem claim5_amended (st : ManagerState) (sub : UserSubmittedMessage)
    (newId now : Nat) (c0 : Chat) (ts ts2 : TurnState) (d g : String)
    (chat : Chat) (latest : Message)
    (hc0 : mapGet st.chats sub.chatID = some c0)
    (hempty : ts.reply.content = "") :
    (∃ c, mapGet (sendMessage st sub newId now).state.chats sub.chatID = some c
        ∧ c.updated = now) ∧
    (getReplyStart chat latest newId now).chat.updated = now ∧
    (onStreamError ts now).chat.updated = now ∧
    (onStreamDone ts2 now g).chat.updated = now ∧
    (onStreamData ts2 d).chat.updated = ts2.chat.updated := by
  refine ⟨?_, ?_, ?_, ?_, ?_⟩
  · refine ⟨{ c0 with
        messages := c0.messages.addMessage
          { id := newId, parentID := sub.parentID, chatID := c0.id, timestamp := now,
            role := .user, content := sub.content, done := true },
        updated := now }, ?_, rfl⟩
    simp only [sendMessage, hc0]
    exact mapGet_mapSet_self st.chats sub.chatID _
  · simp [getReplyStart]
  · simp [onStreamError, hempty]
  · simp only [onStreamDone]
    by_cases ht : (ts2.chat.title = "") <;> by_cases hg : (g = "") <;> simp [ht, hg]
  · simp [onStreamData]

/-- A submission naming the known chat 7 with parent 1. -/
def subKnown : UserSubmittedMessage := { chatID := 7, parentID := some 1, content := "more" }

/-- Witness for C5 as amended, at the concrete fixtures. -/
theorem claim5_witness :
    (∃ c, mapGet (sendMessage stEx subKnown 100 200).state.chats subKnown.chatID = some c
        ∧ c.updated = 200) ∧
    (getReplyStart chatEx msgRoot 100 200).chat.updated = 200 ∧
    (onStreamError tsEx 200).chat.updated = 200 ∧
    (onStreamDone tsEx 200 "t").chat.updated = 200 ∧
    (onStreamData tsEx "world").chat.updated = tsEx.chat.updated :=
  claim5_amended stEx subKnown 100 200 chatEx tsEx tsEx "world" "t" chatEx msgRoot
    (by decide) (by decide)

/-! ### C9: the background persistence loop and a failed flush -/

/-- The loop state right before the first flush attempt: initial load
done, dirty flag set. -/
def loopStart : LoopState := { loaded := true, changed := true, alive := true, flushes := 0 }

/-- C9 at its failing input. The first two clauses show the gating (no
flush unless loaded and dirty) and that a healthy tick flushes. The
remaining clauses evaluate the failing input: the save rejection on the
first tick ends the loop, and a later tick with the dirty flag set
again and a healthy save performs no flush ever again, contradicting
the claimed retry behaviour. -/
theorem claim9_failed_flush_kills_loop :
    (persistenceTick { loopStart with loaded := false } false).flushes = 0 ∧
    (persistenceTick { loopStart with changed := false } false).flushes = 0 ∧
    (persistenceTick loopStart false).flushes = 1 ∧
    (persistenceTick loopStart true).alive = false ∧
    (persistenceTick loopStart true).flushes = 0 ∧
    (markChanged (persistenceTick loopStart true)).changed = true ∧
    (markChanged (persistenceTick loopStart true)).loaded = true ∧
    persistenceTick (markChanged (persistenceTick loopStart true)) false
      = markChanged (persistenceTick loopStart true) ∧
    (persistenceTick (markChanged (persistenceTick loopStart true)) false).flushes = 0 := by
  decide

/-! ### Lemmas about ellipsize -/

theorem ellipsize_eq_empty_iff (s : String) (n : Nat) :
    ellipsize s n = "" ↔ s = "" := by
  unfold ellipsize
  by_cases h : s.length ≤ n
  · simp [h]
  · simp only [h, if_false]
    constructor
    · intro he
      have hlen := congrArg String.length he
      simp [String.length_append] at hlen
      exact absurd hlen.2 (by decide)
    · intro hs
      exact absurd (by simp [hs] : s.length ≤ n) h

/-! ### C7: the blank-query branch of Search.query -/

/-- C7. For a blank (empty or whitespace-only) query, the result does
not depend on the search index at all, and is the post-processing of
the chats sorted by `updated` descending and truncated to at most 10;
the sorted list is indeed sorted descending by `updated` and is a
permutation of the stored chats. -/
theorem claim7_blank_query_recency (idx1 idx2 : IndexOracle)
    (chats : List (Nat × Chat)) (q : String) (hq : isBlank q = true) :
    searchQuery idx1 chats q = searchQuery idx2 chats q ∧
    searchQuery idx1 chats q
      = processSearchResults chats
          (((sortByUpdatedDesc (chats.map (fun p => p.2))).take 10).map (fun c => c.id)) ∧
    ((sortByUpdatedDesc (chats.map (fun p => p.2))).take 10).length ≤ 10 ∧
    List.Sorted chatGE (sortByUpdatedDesc (chats.map (fun p => p.2))) ∧
    (sortByUpdatedDesc (chats.map (fun p => p.2))).Perm (chats.map (fun p => p.2)) := by
  refine ⟨?_, ?_, ?_, ?_, ?_⟩
  · simp [searchQuery, hq]
  · simp [searchQuery, hq]
  · exact List.length_take_le 10 _
  · exact List.sorted_insertionSort chatGE _
  · exact List.perm_insertionSort chatGE _

/-- A chat with a single message of content "m", for the C7 witness. -/
def mkChatW (i u : Nat) : Chat :=
  { id := i, title := "",
    messages := MessageTree.empty.addMessage
      { id := 10 + i, parentID := none, chatID := i, timestamp := 0,
        role := .user, content := "m", done := true },
    created := 0, updated := u }

/-- Four chats with `updated` timestamps 5, 3, 8, 1. -/
def chatsW : List (Nat × Chat) :=
  [(1, mkChatW 1 5), (2, mkChatW 2 3), (3, mkChatW 3 8), (4, mkChatW 4 1)]

/-- A trivial index oracle. -/
def idxNone : IndexOracle := ⟨fun _ => [], fun _ => []⟩

/-- A second index oracle, returning chat 2 for every query. -/
def idxTwo : IndexOracle := ⟨fun _ => [2], fun _ => [2]⟩

/-- Witness for C7: on chats with `updated` timestamps [5, 3, 8, 1] the
empty query is served in `updated` order [8, 5, 3, 1] (chat ids
[3, 1, 2, 4]), whatever the index holds. -/
theorem claim7_witness :
    (searchQuery idxNone chatsW "" = searchQuery idxTwo chatsW "" ∧
     searchQuery idxNone chatsW ""
       = processSearchResults chatsW
           (((sortByUpdatedDesc (chatsW.map (fun p => p.2))).take 10).map (fun c => c.id)) ∧
     ((sortByUpdatedDesc (chatsW.map (fun p => p.2))).take 10).length ≤ 10 ∧
     List.Sorted chatGE (sortByUpdatedDesc (chatsW.map (fun p => p.2))) ∧
     (sortByUpdatedDesc (chatsW.map (fun p => p.2))).Perm (chatsW.map (fun p => p.2))) ∧
    ((sortByUpdatedDesc (chatsW.map (fun p => p.2))).map (fun c => c.updated) = [8, 5, 3, 1] ∧
     (searchQuery idxNone chatsW "").map (fun h => h.chatID) = [3, 1, 2, 4]) :=
  ⟨claim7_blank_query_recency idxNone idxTwo chatsW "" (by decide), by decide⟩

/-! ### C8: which hits survive search post-processing -/

/-- A chat with a non-empty title but no messages (so its derived
description is empty). -/
def chatTitled : Chat :=
  { id := 1, title := "Hello", messages := MessageTree.empty, created := 0, updated := 0 }

/-- Counterexample for C8: a hit whose chat has a perfectly usable
title is nevertheless dropped, because its derived description is
empty. The claim says a hit is dropped only when it lacks BOTH a usable
title and a usable description; this hit lacks only the description. -/
theorem claim8_counterexample :
    processSearchResults [(1, chatTitled)] [1] = [] ∧
    chatTitled.title ≠ "" ∧
    mapGet [(1, chatTitled)] 1 = some chatTitled := by
  decide

/-- C8 as amended: a hit whose chat is live is dropped exactly when its
derived description is empty; otherwise it is kept, with the fallback
title (the description ellipsized to 100 characters) exactly when the
chat has no title. In particular a hit with a usable description but no
title is kept, and a hit with a usable title but empty description is
dropped. -/
theorem claim8_amended (chats : List (Nat × Chat)) (itemId : Nat) (chat : Chat)
    (h : mapGet chats itemId = some chat) :
    processItem chats itemId
      = (if derivedDescription chat = "" then none
         else some ⟨itemId,
           (if chat.title = "" then ellipsize (derivedDescription chat) 100 else chat.title),
           derivedDescription chat⟩) ∧
    processSearchResults chats [itemId] = (processItem chats itemId).toList := by
  constructor
  · simp only [processItem, h]
    by_cases hd : derivedDescription chat = ""
    · simp [hd]
    · have hfb : ellipsize (derivedDescription chat) 100 ≠ "" := by
        intro he
        exact hd ((ellipsize_eq_empty_iff _ _).mp he)
      by_cases ht : chat.title = ""
      · simp [hd, ht, hfb]
      · simp [hd, ht]
  · simp only [processSearchResults, List.filterMap]
    cases hpi : processItem chats itemId <;> simp [hpi]

/-- A title-less chat with a single message of content "hi". -/
def chatUntitled : Chat :=
  { id := 3, title := "",
    messages := MessageTree.empty.addMessage
      { id := 5, parentID := none, chatID := 3, timestamp := 0,
        role := .user, content := "hi", done := true },
    created := 0, updated := 0 }

/-- Witness for C8 as amended, on a title-less chat with content: the
hit is kept and carries the fallback title. -/
theorem claim8_witness :
    (processItem [(3, chatUntitled)] 3
      = (if derivedDescription chatUntitled = "" then none
         else some ⟨3,
           (if chatUntitled.title = ""
            then ellipsize (derivedDescription chatUntitled) 100 else chatUntitled.title),
           derivedDescription chatUntitled⟩) ∧
     processSearchResults [(3, chatUntitled)] [3] = (processItem [(3, chatUntitled)] 3).toList) ∧
    processItem [(3, chatUntitled)] 3 = some ⟨3, "hi", "hi"⟩ :=
  ⟨claim8_amended [(3, chatUntitled)] 3 chatUntitled (by decide), by decide⟩

/-! ### C6: serialize / reconstruct round trip -/

/-- Tree reconstruction as performed by `ChatManager.load`: a fresh
tree, then `addMessage` for each serialized message in storage order. -/
def reconstruct (l : List Message) : MessageTree :=
  l.foldl MessageTree.addMessage MessageTree.empty

/-- The trees reachable by valid insertions (fresh id, parent already
present) with arbitrarily interleaved in-place updates. -/
inductive Built : MessageTree → Prop where
  | empty : Built MessageTree.empty
  | add {t : MessageTree} (m : Message) : Built t →
      (∀ x ∈ t.msgs, x.id ≠ m.id) →
      (match m.parentID with
        | none => True
        | some p => ∃ x ∈ t.msgs, x.id = p) →
      Built (t.addMessage m)
  | update {t : MessageTree} (m : Message) : Built t → Built (t.updateMessage m)

theorem addMessage_of_fresh {t : MessageTree} {m : Message}
    (hf : ∀ x ∈ t.msgs, x.id ≠ m.id) : t.addMessage m = ⟨t.msgs ++ [m]⟩ := by
  have hany : t.msgs.any (fun x => x.id == m.id) = false := by
    rw [List.any_eq_false]
    intro x hx
    simpa using hf x hx
  unfold MessageTree.addMessage
  simp [hany]

theorem updateMessage_ids (t : MessageTree) (m : Message) :
    (t.updateMessage m).msgs.map (fun x => x.id) = t.msgs.map (fun x => x.id) := by
  unfold MessageTree.updateMessage
  rw [List.map_map]
  apply List.map_congr_left
  intro x hx
  by_cases hxe : x.id = m.id <;> simp [hxe]

theorem built_nodup {t : MessageTree} (h : Built t) :
    (t.msgs.map (fun m => m.id)).Nodup := by
  induction h with
  | empty => simp [MessageTree.empty]
  | add m hb hf hp ih =>
    rw [addMessage_of_fresh hf]
    simp only [List.map_append, List.map_cons, List.map_nil]
    rw [List.nodup_append]
    refine ⟨ih, List.nodup_singleton _, ?_⟩
    intro a ha hmem
    simp at hmem
    obtain ⟨x, hx, hxa⟩ := List.mem_map.mp ha
    exact hf x hx (by rw [hxa, hmem])
  | update m hb ih =>
    rw [updateMessage_ids]
    exact ih

theorem foldl_addMessage_append (l : List Message) :
    ∀ (acc : MessageTree),
      (∀ m ∈ l, m.id ∉ acc.msgs.map (fun x => x.id)) →
      (l.map (fun x => x.id)).Nodup →
      l.foldl MessageTree.addMessage acc = ⟨acc.msgs ++ l⟩ := by
  induction l with
  | nil =>
    intro acc _ _
    simp
  | cons m rest ih =>
    intro acc hfresh hnodup
    have hf : ∀ x ∈ acc.msgs, x.id ≠ m.id := by
      intro x hx he
      exact hfresh m (by simp) (by rw [← he]; exact List.mem_map_of_mem _ hx)
    rw [List.foldl_cons, addMessage_of_fresh hf]
    have hn : (∀ x ∈ rest, ¬x.id = m.id) ∧ (List.map (fun x => x.id) rest).Nodup := by
      simpa using hnodup
    have hrest : ∀ x ∈ rest,
        x.id ∉ (MessageTree.mk (acc.msgs ++ [m])).msgs.map (fun y => y.id) := by
      intro x hx
      simp only [List.map_append, List.map_cons, List.map_nil, List.mem_append]
      rintro (hmem | hmem)
      · exact hfresh x (by simp [hx]) hmem
      · simp at hmem
        exact hn.1 x hx hmem
    rw [ih _ hrest hn.2]
    simp

theorem reconstruct_serialize {t : MessageTree} (h : Built t) :
    reconstruct t.serialize = t := by
  have hnd := built_nodup h
  unfold reconstruct MessageTree.serialize
  rw [foldl_addMessage_append t.msgs MessageTree.empty (by simp [MessageTree.empty]) hnd]
  simp [MessageTree.empty]

/-- C6. For every tree built from valid insertions with interleaved
in-place content/done updates, reconstructing from the serialized flat
sequence by repeated `addMessage` (exactly what `ChatManager.load`
does) yields the same id sequence, the same parent link for every id,
and the same content and done fields for every id. -/
theorem claim6_roundtrip {t : MessageTree} (h : Built t) :
    (reconstruct t.serialize).msgs.map (fun m => m.id) = t.msgs.map (fun m => m.id) ∧
    (∀ id, ((reconstruct t.serialize).findMsg id).map (fun m => m.parentID)
        = (t.findMsg id).map (fun m => m.parentID)) ∧
    (∀ id, ((reconstruct t.serialize).findMsg id).map (fun m => (m.content, m.done))
        = (t.findMsg id).map (fun m => (m.content, m.done))) := by
  rw [reconstruct_serialize h]
  exact ⟨rfl, fun _ => rfl, fun _ => rfl⟩

/-- A tree built by two insertions and one streaming update. -/
def treeC6 : MessageTree :=
  ((MessageTree.empty.addMessage msgRoot).addMessage replyEx).updateMessage
    { replyEx with content := "answer", done := true }

/-- The `Built` evidence for `treeC6`. -/
theorem treeC6_built : Built treeC6 :=
  Built.update _ (Built.add replyEx (Built.add msgRoot Built.empty (by decide) trivial)
    (by decide) ⟨msgRoot, by decide, by decide⟩)

/-- Witness for C6 at the concrete tree, sampling ids 1 and 2. -/
theorem claim6_witness :
    (reconstruct treeC6.serialize).msgs.map (fun m => m.id) = treeC6.msgs.map (fun m => m.id) ∧
    ((reconstruct treeC6.serialize).findMsg 2).map (fun m => m.parentID)
      = (treeC6.findMsg 2).map (fun m => m.parentID) ∧
    ((reconstruct treeC6.serialize).findMsg 1).map (fun m => (m.content, m.done))
      = (treeC6.findMsg 1).map (fun m => (m.content, m.done)) ∧
    ((reconstruct treeC6.serialize).findMsg 2).map (fun m => (m.content, m.done))
      = (treeC6.findMsg 2).map (fun m => (m.content, m.done)) :=
  ⟨(claim6_roundtrip treeC6_built).1,
   (claim6_roundtrip treeC6_built).2.1 2,
   (claim6_roundtrip treeC6_built).2.2 1,
   (claim6_roundtrip treeC6_built).2.2 2⟩

/-! ### C4: tree well-formedness and root-to-parent chains -/

/-- Modelled from the spec (section 3, invariants a and b): a message
list is well-formed when ids are unique and every non-null parent
reference points at an earlier message; `seen` holds the ids inserted
so far. -/
def wfFrom (seen : List Nat) : List Message → Bool
  | [] => true
  | m :: rest =>
    (!(decide (m.id ∈ seen))) && m.parentID.all (fun p => decide (p ∈ seen))
      && wfFrom (m.id :: seen) rest

/-- Well-formedness of a whole tree. -/
def TreeWF (t : MessageTree) : Bool := wfFrom [] t.msgs

theorem wfFrom_cons_iff (seen : List Nat) (x : Message) (rest : List Message) :
    wfFrom seen (x :: rest) = true ↔
      x.id ∉ seen ∧ (∀ q, x.parentID = some q → q ∈ seen) ∧
      wfFrom (x.id :: seen) rest = true := by
  cases hxp : x.parentID <;> simp [wfFrom, hxp, Option.all, and_assoc]

/-- Consecutive elements of a chain are parent-linked. -/
def Linked : List Message → Prop
  | [] => True
  | [_] => True
  | a :: b :: rest => b.parentID = some a.id ∧ Linked (b :: rest)

/-- `l` is a root-to-`p` chain through `t`: non-empty, made of nodes of
`t`, starting at a parentless root, ending at the node with id `p`, and
parent-linked throughout. -/
def IsChainTo (t : MessageTree) (p : Nat) (l : List Message) : Prop :=
  l ≠ [] ∧
  (∀ m ∈ l, t.findMsg m.id = some m) ∧
  l.head?.map (fun m => m.parentID) = some none ∧
  l.getLast?.map (fun m => m.id) = some p ∧
  Linked l

theorem findMsg_id {t : MessageTree} {id : Nat} {m : Message}
    (h : t.findMsg id = some m) : m.id = id := by
  have := List.find?_some h
  simpa using this

theorem wf_parent_lt (id p : Nat) (l : List Message) :
    ∀ (seen : List Nat), wfFrom seen l = true →
      ∀ m, l.find? (fun x => x.id == id) = some m → m.parentID = some p → p ∉ seen →
      (∃ m', l.find? (fun x => x.id == p) = some m') ∧
      l.findIdx (fun x => x.id == p) < l.findIdx (fun x => x.id == id) := by
  induction l with
  | nil =>
    intro seen _ m hfind
    simp at hfind
  | cons x rest ih =>
    intro seen hwf m hfind hpar hpnot
    obtain ⟨hxs, hxpar, hwfrest⟩ := (wfFrom_cons_iff seen x rest).mp hwf
    by_cases hxid : x.id = id
    · have hxidb : (x.id == id) = true := by simpa using hxid
      have hfx : (x :: rest).find? (fun y => y.id == id) = some x := by
        simp [List.find?, hxidb]
      have hmx : x = m := Option.some.inj (hfx.symm.trans hfind)
      exact absurd (hxpar p (by rw [hmx]; exact hpar)) hpnot
    · have hxidb : (x.id == id) = false := by simpa using hxid
      have hfind' : rest.find? (fun y => y.id == id) = some m := by
        simpa [List.find?, hxidb] using hfind
      by_cases hpx : p = x.id
      · constructor
        · refine ⟨x, ?_⟩
          simp [List.find?, hpx]
        · rw [List.findIdx_cons, List.findIdx_cons]
          simp [hxidb, hpx]
      · have hpnot' : p ∉ (x.id :: seen) := by
          intro hmem
          rcases List.mem_cons.mp hmem with h1 | h2
          · exact hpx h1
          · exact hpnot h2
        obtain ⟨⟨m', hm'⟩, hlt⟩ := ih (x.id :: seen) hwfrest m hfind' hpar hpnot'
        have hxpb : (x.id == p) = false := by
          simp only [beq_eq_false_iff_ne, ne_eq]
          intro he
          exact hpx he.symm
        constructor
        · exact ⟨m', by simp [List.find?, hxpb, hm']⟩
        · rw [List.findIdx_cons, List.findIdx_cons]
          simp only [hxidb, hxpb, cond_false]
          omega

theorem head?_append_of_ne_nil {xs : List Message} (ys : List Message)
    (h : xs ≠ []) : (xs ++ ys).head? = xs.head? := by
  cases xs with
  | nil => exact absurd rfl h
  | cons a l => rfl

theorem linked_concat (m : Message) (p : Nat) :
    ∀ (xs : List Message), Linked xs →
      xs.getLast?.map (fun y => y.id) = some p → m.parentID = some p →
      Linked (xs ++ [m])
  | [], _, hlast, _ => by simp at hlast
  | [a], _, hlast, hpar => by
      simp at hlast
      exact ⟨by rw [hpar, hlast], trivial⟩
  | a :: b :: rest, hlink, hlast, hpar => by
      refine ⟨hlink.1, ?_⟩
      exact linked_concat m p (b :: rest) hlink.2 (by simpa using hlast) hpar

theorem chain_ok (t : MessageTree) (hwf : TreeWF t = true) :
    ∀ k id m, t.findMsg id = some m →
      t.msgs.findIdx (fun x => x.id == id) = k →
      ∀ fuel, k < fuel → IsChainTo t id (t.chainTo fuel id) := by
  intro k
  induction k using Nat.strong_induction_on with
  | _ k ihk =>
    intro id m hfind hidx fuel hfuel
    cases fuel with
    | zero => omega
    | succ f =>
      have hmid : m.id = id := findMsg_id hfind
      cases hpar : m.parentID with
      | none =>
        have hch : t.chainTo (f + 1) id = [m] := by
          simp [MessageTree.chainTo, hfind, hpar]
        rw [hch]
        refine ⟨by simp, ?_, ?_, ?_, trivial⟩
        · intro y hy
          simp at hy
          rw [hy, hmid]
          exact hfind
        · simp [hpar]
        · simp [hmid]
      | some p =>
        have hfind2 : t.msgs.find? (fun x => x.id == id) = some m := hfind
        obtain ⟨⟨m', hm'⟩, hlt⟩ :=
          wf_parent_lt id p t.msgs [] hwf m hfind2 hpar (by simp)
        rw [hidx] at hlt
        have hih := ihk (t.msgs.findIdx (fun x => x.id == p)) (by omega) p m' hm' rfl
          f (by omega)
        have hch : t.chainTo (f + 1) id = t.chainTo f p ++ [m] := by
          simp [MessageTree.chainTo, hfind, hpar]
        rw [hch]
        obtain ⟨hne, hmem, hhead, hlast, hlink⟩ := hih
        refine ⟨by simp, ?_, ?_, ?_, ?_⟩
        · intro y hy
          rcases List.mem_append.mp hy with h1 | h2
          · exact hmem y h1
          · simp at h2
            rw [h2, hmid]
            exact hfind
        · rw [head?_append_of_ne_nil _ hne]
          exact hhead
        · rw [List.getLast?_concat]
          simp [hmid]
        · exact linked_concat m p _ hlink hlast hpar

theorem getMessageChainTo_ok {t : MessageTree} {p : Nat} {m : Message}
    (hwf : TreeWF t = true) (hfind : t.findMsg p = some m) :
    IsChainTo t p (t.getMessageChainTo p) := by
  have hfind2 : t.msgs.find? (fun x => x.id == p) = some m := hfind
  have hidx : t.msgs.findIdx (fun x => x.id == p) < t.msgs.length := by
    apply List.findIdx_lt_length_of_exists
    exact ⟨m, List.mem_of_find?_eq_some hfind2, by simpa using findMsg_id hfind⟩
  exact chain_ok t hwf _ p m hfind rfl t.msgs.length hidx

theorem wfFrom_append (m : Message) :
    ∀ (l : List Message) (seen : List Nat), wfFrom seen l = true →
      m.id ∉ seen → (∀ x ∈ l, x.id ≠ m.id) →
      (∀ p, m.parentID = some p → p ∈ seen ∨ ∃ x ∈ l, x.id = p) →
      wfFrom seen (l ++ [m]) = true
  | [], seen, _, hns, _, hpar => by
      apply (wfFrom_cons_iff seen m []).mpr
      refine ⟨hns, ?_, rfl⟩
      intro q hq
      rcases hpar q hq with h | ⟨x, hx, _⟩
      · exact h
      · simp at hx
  | x :: rest, seen, hwf, hns, hfresh, hpar => by
      obtain ⟨h1, h2, h3⟩ := (wfFrom_cons_iff seen x rest).mp hwf
      apply (wfFrom_cons_iff seen x (rest ++ [m])).mpr
      refine ⟨h1, h2, ?_⟩
      apply wfFrom_append m rest (x.id :: seen) h3
      · intro hmem
        rcases List.mem_cons.mp hmem with h | h
        · exact hfresh x (by simp) h.symm
        · exact hns h
      · intro y hy
        exact hfresh y (by simp [hy])
      · intro p hp
        rcases hpar p hp with h | ⟨y, hy, hyp⟩
        · exact Or.inl (by simp [h])
        · rcases List.mem_cons.mp hy with h' | h'
          · exact Or.inl (by simp [h' ▸ hyp])
          · exact Or.inr ⟨y, h', hyp⟩

theorem TreeWF_addMessage {t : MessageTree} {m : Message}
    (hwf : TreeWF t = true) (hfresh : ∀ x ∈ t.msgs, x.id ≠ m.id)
    (hpar : ∀ p, m.parentID = some p → ∃ x ∈ t.msgs, x.id = p) :
    TreeWF (t.addMessage m) = true := by
  rw [addMessage_of_fresh hfresh]
  exact wfFrom_append m t.msgs [] hwf (by simp) hfresh
    (fun p hp => Or.inr (hpar p hp))

/-- The submission on chat 7 stating no parent, for the C4
counterexample. -/
def subNoParent : UserSubmittedMessage := { chatID := 7, parentID := none, content := "hi" }

/-- Counterexample for C4: on a chat whose tree already has a root
(message 1), a submission stating no parent produces a user message
whose parent is `none` — NOT the chat's root — and the reply context is
just that single message, not a root chain. -/
theorem claim4_counterexample :
    (sendMessage stEx subNoParent 100 200).result
      = .ok [newUserMsg subNoParent chatEx 100 200] ∧
    (mapGet (sendMessage stEx subNoParent 100 200).state.chats 7).map
        (fun c => c.messages.first.map (fun m => m.id)) = some (some 1) ∧
    (newUserMsg subNoParent chatEx 100 200).parentID = none ∧
    ¬ ((newUserMsg subNoParent chatEx 100 200).parentID = some 1) := by
  decide

/-- C4 as amended: the new user message's parent is exactly the
submission's stated parent. When no parent is stated the new message
has no parent (it becomes an additional root) and the context driven
into the reply turn is just the new message; when a parent `p` present
in the (well-formed) tree is stated, the context is the root-to-`p`
chain through the post-insertion tree with the new message appended. -/
theorem claim4_amended
    (st st2 : ManagerState) (sub1 sub2 : UserSubmittedMessage)
    (newId now newId2 now2 p : Nat) (c0 c2 : Chat) (m2 : Message)
    (hc0 : mapGet st.chats sub1.chatID = some c0)
    (hp1 : sub1.parentID = none)
    (hc2 : mapGet st2.chats sub2.chatID = some c2)
    (hp2 : sub2.parentID = some p)
    (hwf : TreeWF c2.messages = true)
    (hfresh : ∀ x ∈ c2.messages.msgs, x.id ≠ newId2)
    (hpmem : m2 ∈ c2.messages.msgs) (hpid : m2.id = p) :
    (sendMessage st sub1 newId now).result = .ok [newUserMsg sub1 c0 newId now] ∧
    (newUserMsg sub1 c0 newId now).parentID = none ∧
    (newUserMsg sub2 c2 newId2 now2).parentID = some p ∧
    (sendMessage st2 sub2 newId2 now2).result
      = .ok ((c2.messages.addMessage (newUserMsg sub2 c2 newId2 now2)).getMessageChainTo p
             ++ [newUserMsg sub2 c2 newId2 now2]) ∧
    IsChainTo (c2.messages.addMessage (newUserMsg sub2 c2 newId2 now2)) p
      ((c2.messages.addMessage (newUserMsg sub2 c2 newId2 now2)).getMessageChainTo p) := by
  refine ⟨?_, ?_, ?_, ?_, ?_⟩
  · simp [sendMessage, hc0, hp1]
  · simp [newUserMsg, hp1]
  · simp [newUserMsg, hp2]
  · simp [sendMessage, hc2, hp2]
  · have hwf1 : TreeWF (c2.messages.addMessage (newUserMsg sub2 c2 newId2 now2)) = true := by
      apply TreeWF_addMessage hwf
      · intro x hx
        exact hfresh x hx
      · intro q hq
        simp [newUserMsg, hp2] at hq
        exact ⟨m2, hpmem, hq ▸ hpid⟩
    have hmem1 : m2 ∈ (c2.messages.addMessage (newUserMsg sub2 c2 newId2 now2)).msgs := by
      rw [addMessage_of_fresh (fun x hx => hfresh x hx)]
      exact List.mem_append_left _ hpmem
    have hsome : ((c2.messages.addMessage (newUserMsg sub2 c2 newId2 now2)).findMsg p).isSome := by
      unfold MessageTree.findMsg
      rw [List.find?_isSome]
      exact ⟨m2, hmem1, by simpa using hpid⟩
    obtain ⟨mf, hmf⟩ := Option.isSome_iff_exists.mp hsome
    exact getMessageChainTo_ok hwf1 hmf

/-- Witness for C4 as amended, at the concrete fixture: a no-parent
submission and a parent-1 submission on chat 7. -/
theorem claim4_witness :
    (sendMessage stEx subNoParent 100 200).result = .ok [newUserMsg subNoParent chatEx 100 200] ∧
    (newUserMsg subNoParent chatEx 100 200).parentID = none ∧
    (newUserMsg subKnown chatEx 101 201).parentID = some 1 ∧
    (sendMessage stEx subKnown 101 201).result
      = .ok ((chatEx.messages.addMessage (newUserMsg subKnown chatEx 101 201)).getMessageChainTo 1
             ++ [newUserMsg subKnown chatEx 101 201]) ∧
    IsChainTo (chatEx.messages.addMessage (newUserMsg subKnown chatEx 101 201)) 1
      ((chatEx.messages.addMessage (newUserMsg subKnown chatEx 101 201)).getMessageChainTo 1) :=
  claim4_amended stEx stEx subNoParent subKnown 100 200 101 201 1 chatEx chatEx msgRoot
    (by decide) rfl (by decide) rfl (by decide) (by decide) (by decide) rfl

/-! ### C10: the search post-processing never mutates stored chats -/

theorem Heap.get_alloc_of_lt {h : Heap} {r : Nat} (c : Chat) (hr : r < h.next) :
    ((h.alloc c).2).get r = h.get r := by
  unfold Heap.alloc Heap.get
  have hne : (h.next == r) = false := by
    simp only [beq_eq_false_iff_ne, ne_eq]
    omega
  simp [List.find?, hne]

theorem find?_set_ne (r r1 : Nat) (c : Chat) (hne : r ≠ r1) :
    ∀ (cells : List (Nat × Chat)),
      ((cells.map (fun p => if p.1 == r1 then (r1, c) else p)).find?
          (fun p => p.1 == r)).map (fun p => p.2)
        = (cells.find? (fun p => p.1 == r)).map (fun p => p.2)
  | [] => rfl
  | p :: rest => by
      rw [List.map_cons]
      cases hp1 : (p.1 == r1) with
      | true =>
        have hp1' : p.1 = r1 := by simpa using hp1
        have hr1r : (r1 == r) = false := by
          simp only [beq_eq_false_iff_ne, ne_eq]
          exact fun he => hne he.symm
        have hpr : (p.1 == r) = false := by rw [hp1']; exact hr1r
        rw [if_pos rfl, List.find?_cons, List.find?_cons]
        simp only [hr1r, hpr]
        exact find?_set_ne r r1 c hne rest
      | false =>
        rw [if_neg (by simp), List.find?_cons, List.find?_cons]
        cases hpr : (p.1 == r) with
        | true => simp only [hpr]
        | false =>
          simp only [hpr]
          exact find?_set_ne r r1 c hne rest

theorem Heap.get_set_of_ne {h : Heap} {r r1 : Nat} (c : Chat) (hne : r ≠ r1) :
    (h.set r1 c).get r = h.get r := by
  unfold Heap.set Heap.get
  exact find?_set_ne r r1 c hne h.cells

theorem next_le_processItemH (store : List (Nat × Nat)) (h : Heap) (i : Nat) :
    h.next ≤ (processItemH store h i).2.next := by
  unfold processItemH
  cases hs : (store.find? (fun p => p.1 == i)).map (fun p => p.2) with
  | none => exact Nat.le_refl _
  | some r =>
    dsimp only
    cases hg : h.get r with
    | none => exact Nat.le_refl _
    | some chatVal =>
      dsimp only [Heap.alloc, Heap.set]
      split <;> split <;> simp

theorem processItemH_get_of_lt (store : List (Nat × Nat)) (h : Heap) (i r : Nat)
    (hr : r < h.next) :
    ((processItemH store h i).2).get r = h.get r := by
  unfold processItemH
  cases hs : (store.find? (fun p => p.1 == i)).map (fun p => p.2) with
  | none => rfl
  | some r2 =>
    dsimp only
    cases hg : h.get r2 with
    | none => rfl
    | some chatVal =>
      have h1get : ((h.alloc chatVal).2).get r = h.get r := Heap.get_alloc_of_lt _ hr
      have hne : r ≠ (h.alloc chatVal).1 := Nat.ne_of_lt hr
      have hset : ∀ c, (((h.alloc chatVal).2).set (h.alloc chatVal).1 c).get r = h.get r :=
        fun c => (Heap.get_set_of_ne c hne).trans h1get
      dsimp only
      split <;> split <;> first
        | exact h1get
        | exact hset _

theorem processResultsH_frame (store : List (Nat × Nat)) :
    ∀ (items : List Nat) (h : Heap),
      (∀ pr ∈ store, pr.2 < h.next) →
      ∀ pr ∈ store, ((processSearchResultsH store h items).2).get pr.2 = h.get pr.2 := by
  intro items
  induction items with
  | nil =>
    intro h _ pr hpr
    rfl
  | cons i rest ih =>
    intro h hwf pr hpr
    have hnext := next_le_processItemH store h i
    have hwf' : ∀ pr ∈ store, pr.2 < (processItemH store h i).2.next :=
      fun q hq => Nat.lt_of_lt_of_le (hwf q hq) hnext
    have hstep := processItemH_get_of_lt store h i pr.2 (hwf pr hpr)
    have hrest := ih (processItemH store h i).2 hwf' pr hpr
    exact hrest.trans hstep

/-- C10. A `Search.query` post-processing pass leaves every chat object
reachable from the store untouched: the `{ ...chat }` spread copies the
chat into a fresh heap cell, and the fallback-title assignment writes
only through that fresh reference, so every stored reference reads back
exactly its old object afterwards. -/
theorem claim10_no_mutation (store : List (Nat × Nat)) (h : Heap) (items : List Nat)
    (pr : Nat × Nat) (hwf : ∀ q ∈ store, q.2 < h.next) (hpr : pr ∈ store) :
    ((processSearchResultsH store h items).2).get pr.2 = h.get pr.2 :=
  processResultsH_frame store items h hwf pr hpr

/-- The single-cell heap holding `chatUntitled` at reference 0. -/
def heapW : Heap := { next := 1, cells := [(0, chatUntitled)] }

/-- The store mapping chat id 3 to reference 0. -/
def storeW : List (Nat × Nat) := [(3, 0)]

/-- Witness for C10: processing the hit for chat 3 leaves the stored
object untouched, while the produced row (built from the fresh copy)
does carry the fallback title. -/
theorem claim10_witness :
    ((processSearchResultsH storeW heapW [3]).2).get 0 = heapW.get 0 ∧
    ((processSearchResultsH storeW heapW [3]).1 = [⟨3, "hi", "hi"⟩] ∧
     heapW.get 0 = some chatUntitled ∧ chatUntitled.title = "") :=
  ⟨claim10_no_mutation storeW heapW [3] (3, 0) (by decide) (by decide), by decide⟩

end ChatApp
